import Mathlib

set_option maxHeartbeats 1000000

namespace Rosalind

-- Shallow embedding of src/rosalind/utils.py.
-- Strings are modelled as List Char; a Python exception (KeyError/IndexError)
-- is modelled as Option.none of the function result.

-- Association-list lookup, modelling Python dict access d[k] (none = KeyError).
def lookupT {α : Type} (k : List Char) : List (List Char × α) → Option α
  | [] => none
  | (k2, v) :: rest => if k = k2 then some v else lookupT k rest

-- ProteinToolbox.rna_codon_table (insertion order preserved).
def rna_codon_table : List (List Char × List Char) := [
  ("UUU".data, "F".data),
  ("UUC".data, "F".data),
  ("UUA".data, "L".data),
  ("UUG".data, "L".data),
  ("UCU".data, "S".data),
  ("UCC".data, "S".data),
  ("UCA".data, "S".data),
  ("UCG".data, "S".data),
  ("UAU".data, "Y".data),
  ("UAC".data, "Y".data),
  ("UAA".data, "Stop".data),
  ("UAG".data, "Stop".data),
  ("UGU".data, "C".data),
  ("UGC".data, "C".data),
  ("UGA".data, "Stop".data),
  ("UGG".data, "W".data),
  ("CUU".data, "L".data),
  ("CUC".data, "L".data),
  ("CUA".data, "L".data),
  ("CUG".data, "L".data),
  ("CCU".data, "P".data),
  ("CCC".data, "P".data),
  ("CCA".data, "P".data),
  ("CCG".data, "P".data),
  ("CAU".data, "H".data),
  ("CAC".data, "H".data),
  ("CAA".data, "Q".data),
  ("CAG".data, "Q".data),
  ("CGU".data, "R".data),
  ("CGC".data, "R".data),
  ("CGA".data, "R".data),
  ("CGG".data, "R".data),
  ("AUU".data, "I".data),
  ("AUC".data, "I".data),
  ("AUA".data, "I".data),
  ("AUG".data, "M".data),
  ("ACU".data, "T".data),
  ("ACC".data, "T".data),
  ("ACA".data, "T".data),
  ("ACG".data, "T".data),
  ("AAU".data, "N".data),
  ("AAC".data, "N".data),
  ("AAA".data, "K".data),
  ("AAG".data, "K".data),
  ("AGU".data, "S".data),
  ("AGC".data, "S".data),
  ("AGA".data, "R".data),
  ("AGG".data, "R".data),
  ("GUU".data, "V".data),
  ("GUC".data, "V".data),
  ("GUA".data, "V".data),
  ("GUG".data, "V".data),
  ("GCU".data, "A".data),
  ("GCC".data, "A".data),
  ("GCA".data, "A".data),
  ("GCG".data, "A".data),
  ("GAU".data, "D".data),
  ("GAC".data, "D".data),
  ("GAA".data, "E".data),
  ("GAG".data, "E".data),
  ("GGU".data, "G".data),
  ("GGC".data, "G".data),
  ("GGA".data, "G".data),
  ("GGG".data, "G".data)]

-- ProteinToolbox.reverse_codon_table (insertion order preserved).
def reverse_codon_table : List (List Char × List (List Char)) := [
  ("F".data, ["UUU".data, "UUC".data]),
  ("L".data, ["UUA".data, "UUG".data, "CUU".data, "CUC".data, "CUA".data, "CUG".data]),
  ("S".data, ["UCU".data, "UCC".data, "UCA".data, "UCG".data, "AGU".data, "AGC".data]),
  ("Y".data, ["UAU".data, "UAC".data]),
  ("Stop".data, ["UAA".data, "UAG".data, "UGA".data]),
  ("C".data, ["UGU".data, "UGC".data]),
  ("W".data, ["UGG".data]),
  ("P".data, ["CCU".data, "CCC".data, "CCA".data, "CCG".data]),
  ("H".data, ["CAU".data, "CAC".data]),
  ("Q".data, ["CAA".data, "CAG".data]),
  ("R".data, ["CGU".data, "CGC".data, "CGA".data, "CGG".data, "AGA".data, "AGG".data]),
  ("I".data, ["AUU".data, "AUC".data, "AUA".data]),
  ("M".data, ["AUG".data]),
  ("T".data, ["ACU".data, "ACC".data, "ACA".data, "ACG".data]),
  ("N".data, ["AAU".data, "AAC".data]),
  ("K".data, ["AAA".data, "AAG".data]),
  ("V".data, ["GUU".data, "GUC".data, "GUA".data, "GUG".data]),
  ("A".data, ["GCU".data, "GCC".data, "GCA".data, "GCG".data]),
  ("D".data, ["GAU".data, "GAC".data]),
  ("E".data, ["GAA".data, "GAG".data]),
  ("G".data, ["GGU".data, "GGC".data, "GGA".data, "GGG".data])]

-- ProteinToolbox.translate_codon: self.rna_codon_table[codon]
def translate_codon (codon : List Char) : Option (List Char) :=
  lookupT codon rna_codon_table

-- ProteinToolbox.get_codons: self.reverse_codon_table[amino_acid]
def get_codons (amino_acid : List Char) : Option (List (List Char)) :=
  lookupT amino_acid reverse_codon_table

-- self.reverse_codon_table["Stop"], the stop-codon list used by translate.
def stop_codons : List (List Char) :=
  (get_codons ("Stop".data)).getD []

-- Whether pat occurs at the head of s (helper for str.find).
def matchesAt : List Char → List Char → Bool
  | [], _ => true
  | _ :: _, [] => false
  | p :: ps, s :: ss => p == s && matchesAt ps ss

-- Python str.find as an Option: index of the first occurrence of pat in s.
def strFind (pat : List Char) : List Char → Option Nat
  | [] => if matchesAt pat [] then some 0 else none
  | s :: ss => if matchesAt pat (s :: ss) then some 0 else Option.map (fun n => n + 1) (strFind pat ss)

-- Python slice s[i:] with a possibly negative integer index.
def pySliceFrom (s : List Char) (i : Int) : List Char :=
  if 0 ≤ i then s.drop i.toNat else s.drop (s.length - (-i).toNat)

-- The loop of ProteinToolbox.translate: for index in range(0, len(orf), 3):
--   codon = orf[index:index+3]; break on stop; else append table lookup.
def translateLoop : List Char → Option (List Char)
  | [] => some []
  | [c] =>
    if [c] ∈ stop_codons then some []
    else
      match translate_codon [c] with
      | none => none
      | some amino => Option.map (fun p => amino ++ p) (translateLoop [])
  | [c, d] =>
    if [c, d] ∈ stop_codons then some []
    else
      match translate_codon [c, d] with
      | none => none
      | some amino => Option.map (fun p => amino ++ p) (translateLoop [])
  | c :: d :: e :: rest =>
    if [c, d, e] ∈ stop_codons then some []
    else
      match translate_codon [c, d, e] with
      | none => none
      | some amino => Option.map (fun p => amino ++ p) (translateLoop rest)

-- ProteinToolbox.translate: orf = messenger_rna[messenger_rna.find("AUG"):],
-- where find returns -1 when "AUG" does not occur.
def translate (messenger_rna : List Char) : Option (List Char) :=
  let idx : Int :=
    match strFind ("AUG".data) messenger_rna with
    | some n => (n : Int)
    | none => -1
  translateLoop (pySliceFrom messenger_rna idx)

-- Profile matrix: the dict {"A": [...], "C": [...], "G": [...], "T": [...]}
-- with its keys in insertion order A, C, G, T.
structure ProfileMatrix where
  A : List Nat
  C : List Nat
  G : List Nat
  T : List Nat
deriving DecidableEq

-- The inner loop of get_consensus: nt = "-"; max = 0;
-- for key in keys: if occurrences > max: max = occurrences; nt = key.
def consensusScan : Char → Nat → List (Char × Nat) → Char
  | nt, _, [] => nt
  | nt, m, (key, occurrences) :: rest =>
    if occurrences > m then consensusScan key occurrences rest
    else consensusScan nt m rest

-- The per-position entries scanned by get_consensus, in key order A, C, G, T.
def columnEntries (pm : ProfileMatrix) (i : Nat) : List (Char × Nat) :=
  [('A', pm.A.getD i 0), ('C', pm.C.getD i 0), ('G', pm.G.getD i 0), ('T', pm.T.getD i 0)]

-- get_consensus: length = len(profile_matrix["A"]); one scan per position.
def get_consensus (pm : ProfileMatrix) : List Char :=
  (List.range pm.A.length).map (fun i => consensusScan '-' 0 (columnEntries pm i))

-- The DNA symbol keys of the profile matrix, in insertion order.
def dnaSyms : List Char := ['A', 'C', 'G', 'T']

-- profile_matrix[key][index] += 1 : in-place list update at one index.
def incrRow (row : List Nat) (i : Nat) : List Nat :=
  row.set i (row.getD i 0 + 1)

-- Dict row selection by nucleotide key (KeyError for a non-ACGT symbol).
def incrPM (pm : ProfileMatrix) (sym : Char) (i : Nat) : Option ProfileMatrix :=
  if sym = 'A' then some { pm with A := incrRow pm.A i }
  else if sym = 'C' then some { pm with C := incrRow pm.C i }
  else if sym = 'G' then some { pm with G := incrRow pm.G i }
  else if sym = 'T' then some { pm with T := incrRow pm.T i }
  else none

-- Body of the inner loop of generate_profile_matrix:
-- read[index] (IndexError when out of range), then the increment.
def profileStep (i : Nat) (pm : ProfileMatrix) (read : List Char) : Option ProfileMatrix :=
  (read.get? i).bind (fun sym => incrPM pm sym i)

-- generate_profile_matrix: rows initialised to [0 for nt in reads[0]]
-- (IndexError when reads is empty); then
-- for index in range(len(reads[0])): for read in reads: increment.
def generate_profile_matrix (reads : List (List Char)) : Option ProfileMatrix :=
  (reads.head?).bind (fun first =>
    (List.range first.length).foldlM
      (fun pm i => reads.foldlM (profileStep i) pm)
      ⟨first.map (fun _ => 0), first.map (fun _ => 0),
       first.map (fun _ => 0), first.map (fun _ => 0)⟩)

-- Number of input strands showing symbol sym at position i.
def colCount (reads : List (List Char)) (sym : Char) (i : Nat) : Nat :=
  reads.countP (fun read => read.getD i ' ' == sym)

-- Closed form of the profile matrix: each row lists the per-position counts.
def profileOfCounts (reads : List (List Char)) (n : Nat) : ProfileMatrix :=
  ⟨(List.range n).map (fun i => colCount reads 'A' i),
   (List.range n).map (fun i => colCount reads 'C' i),
   (List.range n).map (fun i => colCount reads 'G' i),
   (List.range n).map (fun i => colCount reads 'T' i)⟩

-- Association-list lookup with single-character keys (dict access, none = KeyError).
def lookupC {α : Type} (k : Char) : List (Char × α) → Option α
  | [] => none
  | (k2, v) :: rest => if k = k2 then some v else lookupC k rest

-- The complements dict of reverse_complement, in insertion order.
def complements : List (Char × Char) := [('A', 'T'), ('T', 'A'), ('G', 'C'), ('C', 'G')]

-- The loop of reverse_complement: one complements[nt] lookup per symbol,
-- appending in iteration order.
def revcompLoop : List Char → Option (List Char)
  | [] => some []
  | nt :: rest =>
    (lookupC nt complements).bind (fun c => (revcompLoop rest).map (fun s => c :: s))

-- reverse_complement: for nt in reversed(dna): complementary_stand += complements[nt]
def reverse_complement (dna : List Char) : Option (List Char) :=
  revcompLoop dna.reverse

-- Total description of the substitution cipher (identity off the DNA alphabet).
def complementChar (nt : Char) : Char :=
  if nt = 'A' then 'T'
  else if nt = 'T' then 'A'
  else if nt = 'G' then 'C'
  else if nt = 'C' then 'G'
  else nt

-- Specification-side description of one consensus position: the earliest
-- symbol in scan order A, C, G, T whose count is maximal, and the placeholder
-- exactly when all four counts are zero.
def firstMaxSymbol (a c g t : Nat) : Char :=
  if a = 0 ∧ c = 0 ∧ g = 0 ∧ t = 0 then '-'
  else if a ≥ c ∧ a ≥ g ∧ a ≥ t then 'A'
  else if c ≥ a ∧ c ≥ g ∧ c ≥ t then 'C'
  else if g ≥ a ∧ g ≥ c ∧ g ≥ t then 'G'
  else 'T'

-- ===================== Theorems =====================

theorem lookupT_mem {α : Type} (k : List Char) (v : α) :
    ∀ tbl : List (List Char × α), lookupT k tbl = some v → (k, v) ∈ tbl := by
  intro tbl
  induction tbl with
  | nil => intro h; simp [lookupT] at h
  | cons p rest ih =>
    intro h
    by_cases hk : k = p.1
    · simp only [lookupT] at h
      rw [if_pos hk] at h
      simp only [Option.some.injEq] at h
      rw [hk, ← h]
      exact List.mem_cons_self _ _
    · simp only [lookupT] at h
      rw [if_neg hk] at h
      exact List.mem_cons_of_mem _ (ih h)

theorem lookupT_none_of_len {α : Type} (k : List Char) :
    ∀ tbl : List (List Char × α), (∀ p ∈ tbl, p.1.length = 3) → k.length ≠ 3 →
      lookupT k tbl = none := by
  intro tbl
  induction tbl with
  | nil => intro _ _; rfl
  | cons p rest ih =>
    intro hlen hk
    simp only [lookupT]
    rw [if_neg, ih (fun q hq => hlen q (List.mem_cons_of_mem _ hq)) hk]
    intro hkp
    exact hk (hkp ▸ hlen p (List.mem_cons_self _ _))

theorem rna_codon_table_keys_len : ∀ p ∈ rna_codon_table, p.1.length = 3 := by decide

theorem stop_codons_len : ∀ s ∈ stop_codons, s.length = 3 := by decide

theorem stop_value_mem : ∀ p ∈ rna_codon_table, p.2 = "Stop".data → p.1 ∈ stop_codons := by
  decide

theorem pySliceFrom_natCast (s : List Char) (p : Nat) : pySliceFrom s (p : Int) = s.drop p := by
  simp [pySliceFrom]

theorem translate_codon_none_of_len (k : List Char) (hk : k.length ≠ 3) :
    translate_codon k = none :=
  lookupT_none_of_len k rna_codon_table rna_codon_table_keys_len hk

theorem translateLoop_short (t : List Char)
    (ht : t.length = 1 ∨ t.length = 2) : translateLoop t = none := by
  have hstop : ∀ cd : List Char, cd.length ≠ 3 → cd ∉ stop_codons := by
    intro cd hcd hmem
    exact hcd (stop_codons_len cd hmem)
  rcases ht with h1 | h2
  · obtain ⟨a, ha⟩ := List.length_eq_one.mp h1
    subst ha
    simp only [translateLoop]
    rw [if_neg (hstop [a] (by simp)), translate_codon_none_of_len [a] (by simp)]
  · obtain ⟨a, b, hab⟩ := List.length_eq_two.mp h2
    subst hab
    simp only [translateLoop]
    rw [if_neg (hstop [a, b] (by simp)), translate_codon_none_of_len [a, b] (by simp)]

theorem translateLoop_incomplete :
    ∀ (codons : List (List Char)) (t : List Char),
      (∀ cd ∈ codons, cd.length = 3) →
      (∀ cd ∈ codons, cd ∉ stop_codons) →
      (∀ cd ∈ codons, (translate_codon cd).isSome = true) →
      (t.length = 1 ∨ t.length = 2) →
      translateLoop (codons.flatten ++ t) = none := by
  intro codons
  induction codons with
  | nil =>
    intro t _ _ _ ht
    simpa using translateLoop_short t ht
  | cons cd rest ih =>
    intro t hlen hnostop hvalid ht
    obtain ⟨a, b, c, habc⟩ := List.length_eq_three.mp (hlen cd (List.mem_cons_self _ _))
    subst habc
    have hx : ([a, b, c] :: rest).flatten ++ t = a :: b :: c :: (rest.flatten ++ t) := by
      simp
    rw [hx]
    simp only [translateLoop]
    rw [if_neg (hnostop [a, b, c] (List.mem_cons_self _ _))]
    obtain ⟨amino, hamino⟩ :=
      Option.isSome_iff_exists.mp (hvalid [a, b, c] (List.mem_cons_self _ _))
    rw [hamino,
      ih t (fun q hq => hlen q (List.mem_cons_of_mem _ hq))
        (fun q hq => hnostop q (List.mem_cons_of_mem _ hq))
        (fun q hq => hvalid q (List.mem_cons_of_mem _ hq)) ht]
    rfl

theorem stop_codons_enum : stop_codons = [['U', 'A', 'A'], ['U', 'A', 'G'], ['U', 'G', 'A']] := by
  decide

theorem translateLoop_stop (s r : List Char) (hs : s ∈ stop_codons) :
    translateLoop (s ++ r) = some [] := by
  rw [stop_codons_enum] at hs
  have hs3 : s = ['U', 'A', 'A'] ∨ s = ['U', 'A', 'G'] ∨ s = ['U', 'G', 'A'] := by
    simpa using hs
  rcases hs3 with h | h | h <;> subst h <;>
    simp only [List.cons_append, List.nil_append, translateLoop] <;>
    rw [if_pos (by decide)]

theorem translateLoop_codons :
    ∀ (codons : List (List Char)) (s r : List Char),
      (∀ cd ∈ codons, cd.length = 3) →
      (∀ cd ∈ codons, cd ∉ stop_codons) →
      (∀ cd ∈ codons, (translate_codon cd).isSome = true) →
      s ∈ stop_codons →
      translateLoop (codons.flatten ++ (s ++ r)) =
        some (codons.map (fun cd => (translate_codon cd).getD [])).flatten := by
  intro codons
  induction codons with
  | nil =>
    intro s r _ _ _ hs
    simpa using translateLoop_stop s r hs
  | cons cd rest ih =>
    intro s r hlen hnostop hvalid hs
    obtain ⟨a, b, c, habc⟩ := List.length_eq_three.mp (hlen cd (List.mem_cons_self _ _))
    subst habc
    have hx : ([a, b, c] :: rest).flatten ++ (s ++ r) =
        a :: b :: c :: (rest.flatten ++ (s ++ r)) := by
      simp
    rw [hx]
    simp only [translateLoop]
    rw [if_neg (hnostop [a, b, c] (List.mem_cons_self _ _))]
    obtain ⟨amino, hamino⟩ :=
      Option.isSome_iff_exists.mp (hvalid [a, b, c] (List.mem_cons_self _ _))
    rw [hamino,
      ih s r (fun q hq => hlen q (List.mem_cons_of_mem _ hq))
        (fun q hq => hnostop q (List.mem_cons_of_mem _ hq))
        (fun q hq => hvalid q (List.mem_cons_of_mem _ hq)) hs]
    simp [hamino]

/-- Claim C2: for an RNA sequence containing "AUG" in which every in-frame
triplet from the first "AUG" up to and including the first in-frame stop codon
is a valid codon, translate returns exactly the concatenation of the amino-acid
symbols of the triplets preceding the stop codon (the start codon's own amino
acid M first), terminates at the stop codon, and never appends the Stop marker
to the output. -/
theorem translate_orf (rna : List Char) (p : Nat)
    (codons : List (List Char)) (s r : List Char)
    (hfind : strFind ("AUG".data) rna = some p)
    (hdecomp : rna.drop p = codons.flatten ++ (s ++ r))
    (hlen : ∀ cd ∈ codons, cd.length = 3)
    (hnostop : ∀ cd ∈ codons, cd ∉ stop_codons)
    (hvalid : ∀ cd ∈ codons, (translate_codon cd).isSome = true)
    (hs : s ∈ stop_codons)
    (hfirst : codons.head? = some ("AUG".data)) :
    translate rna = some (codons.map (fun cd => (translate_codon cd).getD [])).flatten ∧
    (codons.map (fun cd => (translate_codon cd).getD [])).head? = some ("M".data) ∧
    ∀ amino ∈ codons.map (fun cd => (translate_codon cd).getD []), amino ≠ "Stop".data := by
  refine ⟨?_, ?_, ?_⟩
  · simp only [translate, hfind]
    rw [pySliceFrom_natCast, hdecomp]
    exact translateLoop_codons codons s r hlen hnostop hvalid hs
  · obtain ⟨cs, hcs⟩ : ∃ cs, codons = ("AUG".data) :: cs := by
      cases codons with
      | nil => simp at hfirst
      | cons x xs =>
        simp only [List.head?_cons, Option.some.injEq] at hfirst
        exact ⟨xs, by rw [hfirst]⟩
    subst hcs
    simp only [List.map_cons, List.head?_cons, Option.some.injEq]
    decide
  · intro amino hamino hstopmark
    obtain ⟨cd, hcd, heq⟩ := List.mem_map.mp hamino
    obtain ⟨v, hv⟩ := Option.isSome_iff_exists.mp (hvalid cd hcd)
    have hvmem : (cd, v) ∈ rna_codon_table := lookupT_mem cd v rna_codon_table hv
    rw [hv] at heq
    simp only [Option.getD_some] at heq
    rw [heq, hstopmark] at hv
    exact hnostop cd hcd (stop_value_mem (cd, v) hvmem (by rw [heq, hstopmark]))

theorem translate_orf_witness :
    strFind ("AUG".data) ("AUGUUUUAA".data) = some 0 ∧
    translate ("AUGUUUUAA".data) =
      some ((["AUG".data, "UUU".data].map (fun cd => (translate_codon cd).getD [])).flatten) :=
  ⟨by decide,
    (translate_orf ("AUGUUUUAA".data) 0 (["AUG".data, "UUU".data]) ("UAA".data) []
      (by decide) (by decide) (by decide) (by decide) (by decide) (by decide) (by decide)).1⟩

/-- Claim C9: translate applied to the empty string returns an empty protein
chain without raising any error. -/
theorem translate_empty_string : translate [] = some [] := by decide

/-- Claim C5: translate "AUGUUUUAA" returns "MF" (AUG→M, UUU→F, UAA→Stop halts),
and translate "AUGUUUUGA" likewise returns "MF". -/
theorem translate_fixed_examples :
    translate ("AUGUUUUAA".data) = some ("MF".data) ∧
    translate ("AUGUUUUGA".data) = some ("MF".data) := by
  constructor
  · decide
  · decide

/-- Claim C3 counterexample: the RNA input "A" contains no occurrence of "AUG",
yet translate raises a KeyError (modelled as none) instead of returning the
empty protein chain: str.find returns -1, so the Python slice [-1:] leaves the
final single character, whose codon lookup fails. -/
theorem translate_no_aug_counterexample :
    translate ("A".data) = none ∧ translate ("A".data) ≠ some [] := by
  constructor
  · decide
  · decide

/-- Claim C3 (amended): for an RNA input with no occurrence of "AUG", translate
returns the empty protein chain when the input is empty; for a non-empty input
the orf is the slice [-1:], i.e. the final single character, whose codon lookup
raises KeyError (modelled as none). -/
theorem translate_no_aug (rna : List Char)
    (hfind : strFind ("AUG".data) rna = none) :
    translate rna = if rna = [] then some [] else none := by
  cases rna with
  | nil => decide
  | cons c cs =>
    rw [if_neg (by simp)]
    simp only [translate, hfind]
    have hslice : pySliceFrom (c :: cs) (-1) = (c :: cs).drop cs.length := by
      simp [pySliceFrom]
    rw [hslice]
    have hlen1 : ((c :: cs).drop cs.length).length = 1 := by
      simp [List.length_drop]
    exact translateLoop_short _ (Or.inl hlen1)

theorem translate_no_aug_witness :
    strFind ("AUG".data) ("A".data) = none ∧
    translate ("A".data) = if ("A".data : List Char) = [] then some [] else none :=
  ⟨by decide, translate_no_aug ("A".data) (by decide)⟩

/-- Claim C4 counterexample: translate "AUGUU" does not return "M"; the
trailing two-symbol fragment "UU" is looked up as a codon and the lookup
raises KeyError (modelled as none), rather than being silently dropped. -/
theorem translate_incomplete_counterexample :
    translate ("AUGUU".data) = none ∧ translate ("AUGUU".data) ≠ some ("M".data) := by
  constructor
  · decide
  · decide

/-- Claim C4 (amended): for an RNA input in which the suffix starting at the
first "AUG" has length not a multiple of 3 and no in-frame stop codon occurs
before the incomplete tail, the trailing fragment of fewer than 3 symbols is
looked up as a codon and the lookup fails with a KeyError (modelled as none);
in particular translate "AUGUU" fails instead of returning "M". -/
theorem translate_incomplete_tail (rna : List Char) (p : Nat)
    (codons : List (List Char)) (t : List Char)
    (hfind : strFind ("AUG".data) rna = some p)
    (hdecomp : rna.drop p = codons.flatten ++ t)
    (hlen : ∀ cd ∈ codons, cd.length = 3)
    (hnostop : ∀ cd ∈ codons, cd ∉ stop_codons)
    (hvalid : ∀ cd ∈ codons, (translate_codon cd).isSome = true)
    (ht : t.length = 1 ∨ t.length = 2) :
    translate rna = none := by
  simp only [translate, hfind]
  rw [pySliceFrom_natCast, hdecomp]
  exact translateLoop_incomplete codons t hlen hnostop hvalid ht

theorem translate_incomplete_tail_witness :
    strFind ("AUG".data) ("AUGUU".data) = some 0 ∧ translate ("AUGUU".data) = none :=
  ⟨by decide,
    translate_incomplete_tail ("AUGUU".data) 0 (["AUG".data]) ("UU".data)
      (by decide) (by decide) (by decide) (by decide) (by decide) (by decide)⟩

/-- Claim C8: the reverse codon table is the exact inverse relation of the
forward codon table: every one of the 64 codon keys of the forward table is a
member of get_codons (translate_codon key), and the union of the value lists of
the reverse table reproduces exactly the 64-element key set of the forward
table with no omissions and no duplicates. -/
theorem codon_tables_inverse :
    (∀ cd ∈ rna_codon_table.map Prod.fst,
        ((translate_codon cd).bind get_codons).isSome = true ∧
        cd ∈ ((translate_codon cd).bind get_codons).getD []) ∧
    (rna_codon_table.map Prod.fst).length = 64 ∧
    (reverse_codon_table.map Prod.snd).flatten.Nodup ∧
    (rna_codon_table.map Prod.fst).Nodup ∧
    (∀ cd ∈ (reverse_codon_table.map Prod.snd).flatten, cd ∈ rna_codon_table.map Prod.fst) ∧
    (∀ cd ∈ rna_codon_table.map Prod.fst, cd ∈ (reverse_codon_table.map Prod.snd).flatten) := by
  refine ⟨by decide, by decide, by decide, by decide, by decide, by decide⟩

theorem consensusScan_column (a c g t : Nat) :
    consensusScan '-' 0 [('A', a), ('C', c), ('G', g), ('T', t)] = firstMaxSymbol a c g t := by
  simp only [consensusScan, firstMaxSymbol]
  split_ifs <;> first | rfl | omega

/-- Claim C1: for a ProfileMatrix whose keys are stored in the order A, C, G, T
with equal-length non-negative count rows, get_consensus emits at each position
i the earliest symbol in scan order A, C, G, T whose count is maximal among the
four counts at i (a symbol replaces the running maximum only under strict
greater-than, so the first symbol to reach the maximum wins ties), and emits
the placeholder "-" at position i if and only if all four counts at i are 0. -/
theorem get_consensus_correct (pm : ProfileMatrix)
    (hC : pm.C.length = pm.A.length) (hG : pm.G.length = pm.A.length)
    (hT : pm.T.length = pm.A.length) (i : Nat) (hi : i < pm.A.length) :
    (get_consensus pm).get? i =
      some (firstMaxSymbol (pm.A.getD i 0) (pm.C.getD i 0) (pm.G.getD i 0) (pm.T.getD i 0)) := by
  simp only [get_consensus, List.get?_map, List.get?_range hi, Option.map_some',
    columnEntries, consensusScan_column]

theorem get_consensus_correct_witness :
    (0 : Nat) < 2 ∧
    (get_consensus ⟨[1, 0], [1, 2], [0, 2], [0, 0]⟩).get? 0 = some 'A' := by
  refine ⟨by decide, ?_⟩
  have h := get_consensus_correct ⟨[1, 0], [1, 2], [0, 2], [0, 0]⟩ rfl rfl rfl 0 (by decide)
  rw [h]
  decide

theorem getD_set_self : ∀ (l : List Nat) (i v : Nat), i < l.length → (l.set i v).getD i 0 = v := by
  intro l
  induction l with
  | nil => intro i v h; simp at h
  | cons x xs ih =>
    intro i v h
    cases i with
    | zero => rfl
    | succ j => exact ih j v (by simpa using h)

theorem getD_set_ne : ∀ (l : List Nat) (i j v : Nat), j ≠ i → (l.set i v).getD j 0 = l.getD j 0 := by
  intro l
  induction l with
  | nil => intro i j v _; simp [List.set]
  | cons x xs ih =>
    intro i j v hne
    cases i with
    | zero =>
      cases j with
      | zero => exact absurd rfl hne
      | succ j2 => rfl
    | succ i2 =>
      cases j with
      | zero => rfl
      | succ j2 => exact ih i2 j2 v (fun h => hne (by rw [h]))

theorem set_getD_self : ∀ (l : List Nat) (i : Nat), l.set i (l.getD i 0) = l := by
  intro l
  induction l with
  | nil => intro i; rfl
  | cons x xs ih =>
    intro i
    cases i with
    | zero => rfl
    | succ j =>
      show x :: xs.set j (xs.getD j 0) = x :: xs
      rw [ih j]

theorem colCount_cons (read : List Char) (rest : List (List Char)) (sym : Char) (i : Nat) :
    colCount (read :: rest) sym i =
      colCount rest sym i + (if read.getD i ' ' == sym then 1 else 0) := by
  simp [colCount, List.countP_cons]

theorem ite_beq_self (x : Char) : (if x == x then (1 : Nat) else 0) = 1 := by
  simp

theorem ite_beq_ne (x y : Char) (hxy : ¬x = y) : (if x == y then (1 : Nat) else 0) = 0 := by
  simp [hxy]

theorem profile_inner (i : Nat) :
    ∀ (reads : List (List Char)) (pm : ProfileMatrix),
      (∀ read ∈ reads, i < read.length ∧ read.getD i ' ' ∈ dnaSyms) →
      i < pm.A.length → i < pm.C.length → i < pm.G.length → i < pm.T.length →
      reads.foldlM (profileStep i) pm =
        some ⟨pm.A.set i (pm.A.getD i 0 + colCount reads 'A' i),
              pm.C.set i (pm.C.getD i 0 + colCount reads 'C' i),
              pm.G.set i (pm.G.getD i 0 + colCount reads 'G' i),
              pm.T.set i (pm.T.getD i 0 + colCount reads 'T' i)⟩ := by
  intro reads
  induction reads with
  | nil =>
    intro pm _ _ _ _ _
    simp only [List.foldlM_nil, colCount, List.countP_nil, Nat.add_zero, set_getD_self]
    rfl
  | cons read rest ih =>
    intro pm hreads hA hC hG hT
    obtain ⟨hil, hsym⟩ := hreads read (List.mem_cons_self _ _)
    have hrest : ∀ q ∈ rest, i < q.length ∧ q.getD i ' ' ∈ dnaSyms :=
      fun q hq => hreads q (List.mem_cons_of_mem _ hq)
    have hget : read.get? i = some (read.getD i ' ') := by
      rw [List.getD_eq_getD_get?, List.get?_eq_get hil]
      rfl
    rw [List.foldlM_cons]
    simp only [profileStep, hget, Option.some_bind]
    simp only [dnaSyms, List.mem_cons, List.not_mem_nil, or_false] at hsym
    rcases hsym with h | h | h | h <;> rw [h]
    · rw [show incrPM pm 'A' i = some { pm with A := incrRow pm.A i } from rfl]
      simp only [Option.bind_eq_bind', Option.some_bind]
      rw [ih { pm with A := incrRow pm.A i } hrest (by simpa [incrRow] using hA) hC hG hT]
      simp only [incrRow, Option.some.injEq, ProfileMatrix.mk.injEq]
      refine ⟨?_, ?_, ?_, ?_⟩
      · rw [getD_set_self pm.A i _ hA, List.set_set, colCount_cons, h, ite_beq_self 'A']
        congr 1
        omega
      · rw [colCount_cons, h, ite_beq_ne 'A' 'C' (by decide), Nat.add_zero]
      · rw [colCount_cons, h, ite_beq_ne 'A' 'G' (by decide), Nat.add_zero]
      · rw [colCount_cons, h, ite_beq_ne 'A' 'T' (by decide), Nat.add_zero]
    · rw [show incrPM pm 'C' i = some { pm with C := incrRow pm.C i } from rfl]
      simp only [Option.bind_eq_bind', Option.some_bind]
      rw [ih { pm with C := incrRow pm.C i } hrest hA (by simpa [incrRow] using hC) hG hT]
      simp only [incrRow, Option.some.injEq, ProfileMatrix.mk.injEq]
      refine ⟨?_, ?_, ?_, ?_⟩
      · rw [colCount_cons, h, ite_beq_ne 'C' 'A' (by decide), Nat.add_zero]
      · rw [getD_set_self pm.C i _ hC, List.set_set, colCount_cons, h, ite_beq_self 'C']
        congr 1
        omega
      · rw [colCount_cons, h, ite_beq_ne 'C' 'G' (by decide), Nat.add_zero]
      · rw [colCount_cons, h, ite_beq_ne 'C' 'T' (by decide), Nat.add_zero]
    · rw [show incrPM pm 'G' i = some { pm with G := incrRow pm.G i } from rfl]
      simp only [Option.bind_eq_bind', Option.some_bind]
      rw [ih { pm with G := incrRow pm.G i } hrest hA hC (by simpa [incrRow] using hG) hT]
      simp only [incrRow, Option.some.injEq, ProfileMatrix.mk.injEq]
      refine ⟨?_, ?_, ?_, ?_⟩
      · rw [colCount_cons, h, ite_beq_ne 'G' 'A' (by decide), Nat.add_zero]
      · rw [colCount_cons, h, ite_beq_ne 'G' 'C' (by decide), Nat.add_zero]
      · rw [getD_set_self pm.G i _ hG, List.set_set, colCount_cons, h, ite_beq_self 'G']
        congr 1
        omega
      · rw [colCount_cons, h, ite_beq_ne 'G' 'T' (by decide), Nat.add_zero]
    · rw [show incrPM pm 'T' i = some { pm with T := incrRow pm.T i } from rfl]
      simp only [Option.bind_eq_bind', Option.some_bind]
      rw [ih { pm with T := incrRow pm.T i } hrest hA hC hG (by simpa [incrRow] using hT)]
      simp only [incrRow, Option.some.injEq, ProfileMatrix.mk.injEq]
      refine ⟨?_, ?_, ?_, ?_⟩
      · rw [colCount_cons, h, ite_beq_ne 'T' 'A' (by decide), Nat.add_zero]
      · rw [colCount_cons, h, ite_beq_ne 'T' 'C' (by decide), Nat.add_zero]
      · rw [colCount_cons, h, ite_beq_ne 'T' 'G' (by decide), Nat.add_zero]
      · rw [getD_set_self pm.T i _ hT, List.set_set, colCount_cons, h, ite_beq_self 'T']
        congr 1
        omega

theorem row_update_getD (row : List Nat) (N n : Nat) (c : Nat → Nat)
    (hrow : row.length = N) (hnN : n < N)
    (hv : ∀ j, row.getD j 0 = if j < n then c j else 0) :
    ∀ j, (row.set n (row.getD n 0 + c n)).getD j 0 = if j < n + 1 then c j else 0 := by
  intro j
  by_cases hj : j = n
  · subst hj
    rw [getD_set_self _ _ _ (by rw [hrow]; exact hnN), hv j, if_neg (lt_irrefl j),
      if_pos (Nat.lt_succ_self j)]
    omega
  · rw [getD_set_ne _ _ _ _ hj, hv j]
    by_cases hjn : j < n
    · rw [if_pos hjn, if_pos (by omega)]
    · rw [if_neg hjn, if_neg (by omega)]

theorem profile_outer (reads : List (List Char)) (N : Nat)
    (hlen : ∀ read ∈ reads, read.length = N)
    (halpha : ∀ read ∈ reads, ∀ i, i < N → read.getD i ' ' ∈ dnaSyms) :
    ∀ n, n ≤ N → ∀ pm : ProfileMatrix,
      pm.A.length = N → pm.C.length = N → pm.G.length = N → pm.T.length = N →
      (∀ j, pm.A.getD j 0 = 0) → (∀ j, pm.C.getD j 0 = 0) →
      (∀ j, pm.G.getD j 0 = 0) → (∀ j, pm.T.getD j 0 = 0) →
      ∃ pm2 : ProfileMatrix,
        (List.range n).foldlM (fun acc i => reads.foldlM (profileStep i) acc) pm = some pm2 ∧
        pm2.A.length = N ∧ pm2.C.length = N ∧ pm2.G.length = N ∧ pm2.T.length = N ∧
        (∀ j, pm2.A.getD j 0 = if j < n then colCount reads 'A' j else 0) ∧
        (∀ j, pm2.C.getD j 0 = if j < n then colCount reads 'C' j else 0) ∧
        (∀ j, pm2.G.getD j 0 = if j < n then colCount reads 'G' j else 0) ∧
        (∀ j, pm2.T.getD j 0 = if j < n then colCount reads 'T' j else 0) := by
  intro n
  induction n with
  | zero =>
    intro _ pm hA hC hG hT h0A h0C h0G h0T
    exact ⟨pm, by simp, hA, hC, hG, hT,
      fun j => by rw [if_neg (Nat.not_lt_zero j)]; exact h0A j,
      fun j => by rw [if_neg (Nat.not_lt_zero j)]; exact h0C j,
      fun j => by rw [if_neg (Nat.not_lt_zero j)]; exact h0G j,
      fun j => by rw [if_neg (Nat.not_lt_zero j)]; exact h0T j⟩
  | succ n ihn =>
    intro hn1 pm hA hC hG hT h0A h0C h0G h0T
    have hn : n ≤ N := Nat.le_of_succ_le hn1
    have hnN : n < N := hn1
    obtain ⟨pm2, hfold, hA2, hC2, hG2, hT2, hvA, hvC, hvG, hvT⟩ :=
      ihn hn pm hA hC hG hT h0A h0C h0G h0T
    have hinner := profile_inner n reads pm2
      (fun read hr => ⟨by rw [hlen read hr]; exact hnN, halpha read hr n hnN⟩)
      (by rw [hA2]; exact hnN) (by rw [hC2]; exact hnN)
      (by rw [hG2]; exact hnN) (by rw [hT2]; exact hnN)
    refine ⟨⟨pm2.A.set n (pm2.A.getD n 0 + colCount reads 'A' n),
             pm2.C.set n (pm2.C.getD n 0 + colCount reads 'C' n),
             pm2.G.set n (pm2.G.getD n 0 + colCount reads 'G' n),
             pm2.T.set n (pm2.T.getD n 0 + colCount reads 'T' n)⟩,
      ?_, ?_, ?_, ?_, ?_, ?_, ?_, ?_, ?_⟩
    · rw [List.range_succ, List.foldlM_append, hfold]
      simp only [Option.bind_eq_bind', Option.some_bind, List.foldlM_cons, List.foldlM_nil]
      rw [hinner]
      rfl
    · simp only [List.length_set]
      exact hA2
    · simp only [List.length_set]
      exact hC2
    · simp only [List.length_set]
      exact hG2
    · simp only [List.length_set]
      exact hT2
    · exact row_update_getD pm2.A N n (colCount reads 'A') hA2 hnN hvA
    · exact row_update_getD pm2.C N n (colCount reads 'C') hC2 hnN hvC
    · exact row_update_getD pm2.G N n (colCount reads 'G') hG2 hnN hvG
    · exact row_update_getD pm2.T N n (colCount reads 'T') hT2 hnN hvT

theorem getD_map_zero : ∀ (l : List Char) (j : Nat), (l.map (fun _ => (0 : Nat))).getD j 0 = 0 := by
  intro l
  induction l with
  | nil => intro j; rfl
  | cons x xs ih =>
    intro j
    cases j with
    | zero => rfl
    | succ j2 => exact ih j2

theorem getD_eq_get {α : Type} (l : List α) (d : α) (j : Nat) (hj : j < l.length) :
    l.getD j d = l.get ⟨j, hj⟩ := by
  rw [List.getD_eq_getD_get?, List.get?_eq_get hj]
  rfl

theorem getD_map_range (f : Nat → Nat) (n i : Nat) (hi : i < n) :
    ((List.range n).map f).getD i 0 = f i := by
  rw [getD_eq_get _ 0 i (by simpa using hi)]
  simp [List.get_eq_getElem, List.getElem_map, List.getElem_range]

theorem generate_profile_closed (reads : List (List Char)) (N : Nat)
    (hne : reads ≠ [])
    (hlen : ∀ read ∈ reads, read.length = N)
    (halpha : ∀ read ∈ reads, ∀ ch ∈ read, ch ∈ dnaSyms) :
    generate_profile_matrix reads = some (profileOfCounts reads N) := by
  have halpha2 : ∀ read ∈ reads, ∀ i, i < N → read.getD i ' ' ∈ dnaSyms := by
    intro read hr i hi
    have hil : i < read.length := by rw [hlen read hr]; exact hi
    rw [getD_eq_get read ' ' i hil]
    exact halpha read hr _ (List.get_mem read i hil)
  obtain ⟨first, rest0, hfr⟩ := List.exists_cons_of_ne_nil hne
  subst hfr
  have hfN : first.length = N := hlen first (List.mem_cons_self _ _)
  simp only [generate_profile_matrix, List.head?_cons, Option.bind_eq_bind', Option.some_bind]
  rw [hfN]
  obtain ⟨pm2, hfold, hA2, hC2, hG2, hT2, hvA, hvC, hvG, hvT⟩ :=
    profile_outer (first :: rest0) N hlen halpha2 N le_rfl
      ⟨first.map (fun _ => 0), first.map (fun _ => 0), first.map (fun _ => 0),
        first.map (fun _ => 0)⟩
      (by simp [hfN]) (by simp [hfN]) (by simp [hfN]) (by simp [hfN])
      (getD_map_zero first) (getD_map_zero first) (getD_map_zero first) (getD_map_zero first)
  rw [hfold]
  congr 1
  have hrow : ∀ (row : List Nat) (sym : Char), row.length = N →
      (∀ j, row.getD j 0 = if j < N then colCount (first :: rest0) sym j else 0) →
      row = (List.range N).map (fun i => colCount (first :: rest0) sym i) := by
    intro row sym hrl hrv
    apply List.ext_get
    · simp [hrl]
    · intro j h1 h2
      rw [← getD_eq_get row 0 j h1, hrv j, if_pos (by rw [← hrl]; exact h1)]
      rw [List.get_eq_getElem, List.getElem_map, List.getElem_range]
  obtain ⟨a, c, g, t⟩ := pm2
  simp only [profileOfCounts, ProfileMatrix.mk.injEq]
  exact ⟨hrow a 'A' hA2 hvA, hrow c 'C' hC2 hvC, hrow g 'G' hG2 hvG, hrow t 'T' hT2 hvT⟩

theorem colCount_total : ∀ (reads : List (List Char)) (i : Nat),
    (∀ read ∈ reads, read.getD i ' ' ∈ dnaSyms) →
    colCount reads 'A' i + colCount reads 'C' i + colCount reads 'G' i + colCount reads 'T' i
      = reads.length := by
  intro reads i
  induction reads with
  | nil => intro _; rfl
  | cons read rest ih =>
    intro h
    have hsym := h read (List.mem_cons_self _ _)
    have hr := ih (fun q hq => h q (List.mem_cons_of_mem _ hq))
    simp only [dnaSyms, List.mem_cons, List.not_mem_nil, or_false] at hsym
    simp only [colCount_cons, List.length_cons]
    rcases hsym with hs | hs | hs | hs <;> rw [hs]
    · rw [ite_beq_self 'A', ite_beq_ne 'A' 'C' (by decide), ite_beq_ne 'A' 'G' (by decide),
        ite_beq_ne 'A' 'T' (by decide)]
      omega
    · rw [ite_beq_ne 'C' 'A' (by decide), ite_beq_self 'C', ite_beq_ne 'C' 'G' (by decide),
        ite_beq_ne 'C' 'T' (by decide)]
      omega
    · rw [ite_beq_ne 'G' 'A' (by decide), ite_beq_ne 'G' 'C' (by decide), ite_beq_self 'G',
        ite_beq_ne 'G' 'T' (by decide)]
      omega
    · rw [ite_beq_ne 'T' 'A' (by decide), ite_beq_ne 'T' 'C' (by decide),
        ite_beq_ne 'T' 'G' (by decide), ite_beq_self 'T']
      omega

/-- Claim C6: for a non-empty collection of DNA strands of identical length
n > 0 over the alphabet A, C, G, T, the profile matrix returned by
generate_profile_matrix satisfies, at every position i below n, that the sum of
the four symbol counts at i equals the number of input strands. -/
theorem generate_profile_column_sum (reads : List (List Char)) (n : Nat)
    (hne : reads ≠ []) (hn : 0 < n)
    (hlen : ∀ read ∈ reads, read.length = n)
    (halpha : ∀ read ∈ reads, ∀ ch ∈ read, ch ∈ dnaSyms)
    (i : Nat) (hi : i < n) :
    (generate_profile_matrix reads).map
      (fun pm => pm.A.getD i 0 + pm.C.getD i 0 + pm.G.getD i 0 + pm.T.getD i 0) =
      some reads.length := by
  rw [generate_profile_closed reads n hne hlen halpha]
  simp only [Option.map_some']
  congr 1
  simp only [profileOfCounts]
  rw [getD_map_range _ n i hi, getD_map_range _ n i hi, getD_map_range _ n i hi,
    getD_map_range _ n i hi]
  refine colCount_total reads i ?_
  intro read hr
  have hil : i < read.length := by rw [hlen read hr]; exact hi
  rw [getD_eq_get read ' ' i hil]
  exact halpha read hr _ (List.get_mem read i hil)

theorem generate_profile_column_sum_witness :
    (0 : Nat) < 2 ∧
    (generate_profile_matrix [['A', 'C'], ['A', 'G']]).map
      (fun pm => pm.A.getD 0 0 + pm.C.getD 0 0 + pm.G.getD 0 0 + pm.T.getD 0 0) = some 2 := by
  refine ⟨by decide, ?_⟩
  exact generate_profile_column_sum [['A', 'C'], ['A', 'G']] 2 (by decide) (by decide)
    (by decide) (by decide) 0 (by decide)

/-- Claim C7: for a non-empty collection of equal-length DNA strands over
A, C, G, T and any permutation of that collection, generate_profile_matrix
returns the identical profile matrix: aggregation is order-independent across
strands. -/
theorem generate_profile_perm (reads reads2 : List (List Char)) (n : Nat)
    (hperm : reads.Perm reads2) (hne : reads ≠ []) (hn : 0 < n)
    (hlen : ∀ read ∈ reads, read.length = n)
    (halpha : ∀ read ∈ reads, ∀ ch ∈ read, ch ∈ dnaSyms) :
    generate_profile_matrix reads = generate_profile_matrix reads2 := by
  have hne2 : reads2 ≠ [] := by
    intro h
    apply hne
    have hl := hperm.length_eq
    rw [h] at hl
    exact List.length_eq_zero.mp (by simpa using hl)
  have hlen2 : ∀ read ∈ reads2, read.length = n :=
    fun r hr => hlen r (hperm.mem_iff.mpr hr)
  have halpha2 : ∀ read ∈ reads2, ∀ ch ∈ read, ch ∈ dnaSyms :=
    fun r hr => halpha r (hperm.mem_iff.mpr hr)
  rw [generate_profile_closed reads n hne hlen halpha,
    generate_profile_closed reads2 n hne2 hlen2 halpha2]
  have hcc : ∀ (sym : Char) (i : Nat), colCount reads sym i = colCount reads2 sym i :=
    fun sym i => hperm.countP_eq _
  simp only [profileOfCounts, hcc]

theorem generate_profile_perm_witness :
    ([['A'], ['C']] : List (List Char)).Perm [['C'], ['A']] ∧
    generate_profile_matrix [['A'], ['C']] = generate_profile_matrix [['C'], ['A']] :=
  ⟨by decide,
    generate_profile_perm [['A'], ['C']] [['C'], ['A']] 1 (by decide) (by decide) (by decide)
      (by decide) (by decide)⟩

theorem lookupC_complements (nt : Char) (h : nt ∈ dnaSyms) :
    lookupC nt complements = some (complementChar nt) := by
  simp only [dnaSyms, List.mem_cons, List.not_mem_nil, or_false] at h
  rcases h with h | h | h | h <;> rw [h] <;> rfl

theorem complementChar_mem (nt : Char) (h : nt ∈ dnaSyms) : complementChar nt ∈ dnaSyms := by
  simp only [dnaSyms, List.mem_cons, List.not_mem_nil, or_false] at h ⊢
  rcases h with h | h | h | h <;> rw [h] <;> decide

theorem complementChar_involutive (nt : Char) (h : nt ∈ dnaSyms) :
    complementChar (complementChar nt) = nt := by
  simp only [dnaSyms, List.mem_cons, List.not_mem_nil, or_false] at h
  rcases h with h | h | h | h <;> rw [h] <;> rfl

theorem revcompLoop_total : ∀ l : List Char, (∀ ch ∈ l, ch ∈ dnaSyms) →
    revcompLoop l = some (l.map complementChar) := by
  intro l
  induction l with
  | nil => intro _; rfl
  | cons nt rest ih =>
    intro h
    simp only [revcompLoop, lookupC_complements nt (h nt (List.mem_cons_self _ _)),
      Option.some_bind, ih (fun q hq => h q (List.mem_cons_of_mem _ hq)), Option.map_some',
      List.map_cons]

/-- Claim C10: for a DNA strand over the alphabet A, C, G, T,
reverse_complement succeeds, its result has the same length as the input, and
reverse_complement is an involution: applying it to its own output returns the
original strand. -/
theorem reverse_complement_involution (dna : List Char)
    (halpha : ∀ ch ∈ dna, ch ∈ dnaSyms) :
    (reverse_complement dna).map List.length = some dna.length ∧
    (reverse_complement dna).bind reverse_complement = some dna := by
  have h1 : reverse_complement dna = some (dna.reverse.map complementChar) :=
    revcompLoop_total dna.reverse (fun ch hch => halpha ch (List.mem_reverse.mp hch))
  refine ⟨by rw [h1]; simp, ?_⟩
  rw [h1]
  simp only [Option.some_bind]
  have h2 : reverse_complement (dna.reverse.map complementChar) =
      some ((dna.reverse.map complementChar).reverse.map complementChar) := by
    apply revcompLoop_total
    intro ch hch
    rw [List.mem_reverse] at hch
    obtain ⟨a, ha, hac⟩ := List.mem_map.mp hch
    rw [← hac]
    exact complementChar_mem a (halpha a (List.mem_reverse.mp ha))
  rw [h2]
  congr 1
  rw [← List.map_reverse, List.reverse_reverse, List.map_map]
  have hid : ∀ ch ∈ dna, (complementChar ∘ complementChar) ch = ch :=
    fun ch hch => complementChar_involutive ch (halpha ch hch)
  rw [List.map_congr_left hid]
  exact List.map_id' dna

theorem reverse_complement_involution_witness :
    (∀ ch ∈ ("ACGT".data : List Char), ch ∈ dnaSyms) ∧
    (reverse_complement ("ACGT".data)).map List.length = some 4 ∧
    (reverse_complement ("ACGT".data)).bind reverse_complement = some ("ACGT".data) :=
  ⟨by decide, reverse_complement_involution ("ACGT".data) (by decide)⟩

end Rosalind
